import Mathlib

/-!
Verification of the health-api ingestion core.

The repository has two pipelines:
* push pipeline (`src/apple.py`): `process_metrics` parses timestamped metric
  samples, aggregates them into per-date rows (a Python dict keyed by date,
  whose values are dicts keyed by metric name), and upserts one row per date
  into PostgreSQL (`INSERT ... ON CONFLICT (date) DO UPDATE SET ...`) inside a
  single transaction (psycopg connection context manager: commit on success,
  rollback on exception);
* pull pipeline (`main.py`): `prepare_sleep_data` normalizes raw sleep records
  to a fixed 19-field dict, and `upsert_sleep_data` builds one bulk upsert from
  the first record's key set.

Python dicts are insertion-ordered maps; we embed them as association lists
with an update that replaces the first matching key in place and appends fresh
keys at the end.  Database rows are embedded as partial maps from column name
to value (a column absent from the map is NULL / never written).  Floating
point quantities are embedded as rationals.
-/

namespace HealthApi

/-- Lookup in an association list (first match wins), modeling Python dict
lookup and the per-row column lookup of a database table. -/
def lookupA {α : Type} : List (String × α) → String → Option α
  | [], _ => none
  | (k', v) :: rest, k => if k' = k then some v else lookupA rest k

/-- Dict update `d[k] = v`: replace the first entry with key `k` in place,
or append `(k, v)` when `k` is absent.  On duplicate-free lists this is
exactly Python's insertion-ordered dict assignment. -/
def updA {α : Type} : List (String × α) → String → α → List (String × α)
  | [], k, v => [(k, v)]
  | p :: rest, k, v => if p.1 = k then (k, v) :: rest else p :: updA rest k v

/-- Keys of an association list, in order. -/
def keysA {α : Type} (l : List (String × α)) : List String :=
  l.map Prod.fst

/-- Gregorian leap year, as validated by Python's `datetime` constructor. -/
def isLeapYear (y : Nat) : Bool :=
  (y % 4 == 0 && y % 100 != 0) || y % 400 == 0

/-- Number of days in a month, as validated by Python's `datetime` constructor. -/
def daysInMonth (y m : Nat) : Nat :=
  if m = 2 then (if isLeapYear y then 29 else 28)
  else if m = 4 ∨ m = 6 ∨ m = 9 ∨ m = 11 then 30
  else 31

/-- Numeric value of a digit string. -/
def digitsVal (cs : List Char) : Nat :=
  cs.foldl (fun a c => 10 * a + (c.toNat - 48)) 0

/-- Unicode whitespace as matched by Python's `re` class `\\s` on `str`
(the format's literal spaces become `\\s+` in `_strptime`'s compiled regex). -/
def isPySpace (c : Char) : Bool :=
  let n := c.toNat
  (9 ≤ n && n ≤ 13) || (28 ≤ n && n ≤ 31) || n == 32 || n == 133 || n == 160 ||
  n == 0x1680 || (0x2000 ≤ n && n ≤ 0x200A) || n == 0x2028 || n == 0x2029 ||
  n == 0x202F || n == 0x205F || n == 0x3000

/-- Leading run of decimal digits of a character list, and the remainder. -/
def takeDigits : List Char → List Char × List Char
  | [] => ([], [])
  | c :: cs =>
    if c.isDigit then
      let (ds, rest) := takeDigits cs
      (c :: ds, rest)
    else ([], c :: cs)

/-- Length of the leading run of Python whitespace, and the remainder. -/
def takeSpaces : List Char → Nat × List Char
  | [] => (0, [])
  | c :: cs =>
    if isPySpace c then
      let (n, rest) := takeSpaces cs
      (n + 1, rest)
    else (0, c :: cs)

/-- A numeric field of `strptime`'s `%m`/`%d`/`%H`/`%M`/`%S`: a run of one or
two digits — CPython's directive regexes make the zero padding optional. -/
def fieldVal (ds : List Char) : Option Nat :=
  if ds.length = 1 ∨ ds.length = 2 then some (digitsVal ds) else none

/-- Optional fractional part of a `%z` offset: nothing, or a dot followed by
one to six digits (`(\.\d{1,6})?` in CPython's regex). -/
def validFrac : List Char → Bool
  | [] => true
  | c :: ds =>
    c == '.' && ds.all Char.isDigit && decide (1 ≤ ds.length) &&
      decide (ds.length ≤ 6)

/-- Optional seconds of a `%z` offset: nothing, or two digits 00-59 whose
leading colon must agree with the colon usage after the offset's hours —
CPython's regex admits mixed usage but `_strptime` then raises
(`Inconsistent use of :` or the failing `int` conversion). -/
def validTzSec (hasColon : Bool) : List Char → Bool
  | [] => true
  | ':' :: s1 :: s2 :: r =>
    hasColon && (48 ≤ s1.toNat && s1.toNat ≤ 53) && s2.isDigit && validFrac r
  | s1 :: s2 :: r =>
    !hasColon && (48 ≤ s1.toNat && s1.toNat ≤ 53) && s2.isDigit && validFrac r
  | _ => false

/-- A `%z` offset as accepted end to end by
`datetime.strptime(..., "%z")`: the literal `Z` (case-sensitive), or a sign,
a two-digit hour, minutes 00-59 with an optional colon, optional seconds with
matching colon usage, and an optional fraction.  Minutes and seconds are
bounded by 59, so the offset stays strictly below 24 hours (as the
`timezone` constructor requires) exactly when the hour field is at most 23. -/
def validTz : List Char → Bool
  | ['Z'] => true
  | sg :: h1 :: h2 :: rest =>
    (sg == '+' || sg == '-') && h1.isDigit && h2.isDigit &&
    decide (digitsVal [h1, h2] ≤ 23) &&
    (match rest with
     | ':' :: m1 :: m2 :: r =>
       (48 ≤ m1.toNat && m1.toNat ≤ 53) && m2.isDigit && validTzSec true r
     | m1 :: m2 :: r =>
       (48 ≤ m1.toNat && m1.toNat ≤ 53) && m2.isDigit && validTzSec false r
     | _ => false)
  | _ => false

/-- Zero-padded two-digit rendering of a number below 100 (how `.date()`
normalizes a month or day parsed from a non-padded field). -/
def two_digits (n : Nat) : List Char :=
  [Char.ofNat (48 + n / 10), Char.ofNat (48 + n % 10)]

/-- Embedding of `datetime.strptime(s, "%Y-%m-%d %H:%M:%S %z").date()`
(src/apple.py:113-115), following CPython's `_strptime` and the `datetime`
constructor: the year is exactly four digits with value at least 1; month,
day, hour, minute and second are one- or two-digit fields (zero padding
optional) bounded by 12, the month's calendar length, 23, 59 and 59
(two-digit seconds 60-61 pass the regex but the `datetime` constructor then
raises, so the call fails either way); each literal space of the format
matches a run of one or more Python whitespace characters; the offset is as
in `validTz`.  On success the result is the canonical zero-padded calendar
date (the value of `.date()`); `none` models the `ValueError` the program
surfaces.  Digits are modelled as ASCII digits (an idealization in line with
the float-to-rational one: Python's `\d` would also accept other Unicode
decimal digits). -/
def strptime_date (s : String) : Option String :=
  match s.toList with
  | y1 :: y2 :: y3 :: y4 :: '-' :: rest1 =>
    if (y1.isDigit && y2.isDigit && y3.isDigit && y4.isDigit) = true
        ∧ 1 ≤ digitsVal [y1, y2, y3, y4] then
      let yr := digitsVal [y1, y2, y3, y4]
      let (mds, rest2) := takeDigits rest1
      match fieldVal mds, rest2 with
      | some mo, '-' :: rest3 =>
        if 1 ≤ mo ∧ mo ≤ 12 then
          let (dds, rest4) := takeDigits rest3
          match fieldVal dds with
          | some da =>
            if 1 ≤ da ∧ da ≤ daysInMonth yr mo then
              let (n1, rest5) := takeSpaces rest4
              if 1 ≤ n1 then
                let (hds, rest6) := takeDigits rest5
                match fieldVal hds, rest6 with
                | some hh, ':' :: rest7 =>
                  if hh ≤ 23 then
                    let (minds, rest8) := takeDigits rest7
                    match fieldVal minds, rest8 with
                    | some mi, ':' :: rest9 =>
                      if mi ≤ 59 then
                        let (sds, rest10) := takeDigits rest9
                        match fieldVal sds with
                        | some ss =>
                          if ss ≤ 59 then
                            let (n2, rest11) := takeSpaces rest10
                            if 1 ≤ n2 ∧ validTz rest11 = true then
                              some (String.mk ([y1, y2, y3, y4, '-'] ++
                                two_digits mo ++ ['-'] ++ two_digits da))
                            else none
                          else none
                        | none => none
                      else none
                    | _, _ => none
                  else none
                | _, _ => none
              else none
            else none
          | none => none
        else none
      | _, _ => none
    else none
  | _ => none

/-- Errors surfaced by the two pipelines: `ValueError` from `strptime`,
`psycopg.Error` from a row write, `KeyError` from a dict lookup, and
`IndexError` from `data[0]` on an empty list. -/
inductive Err where
  | parseError (ts : String)
  | storeError
  | keyError
  | indexError
deriving DecidableEq

/-- One `{date, qty}` sample (class `MetricData` in src/apple.py). -/
structure MetricData where
  date : String
  qty : ℚ
deriving DecidableEq

/-- One named metric with its samples (class `Metric` in src/apple.py). -/
structure Metric where
  name : String
  data : List MetricData
deriving DecidableEq

/-- Allow-list for the `diet` table (src/apple.py:30). -/
def DIET_METRICS : List String := ["dietary_energy"]

/-- Allow-list for the `body_composition` table (src/apple.py:31-36). -/
def BODY_COMPOSITION_METRICS : List String :=
  ["lean_body_mass", "body_mass_index", "weight_body_mass", "body_fat_percentage"]

/-- A per-date row: partial map from column name to value; a column absent
from the map is NULL / untouched in the database. -/
abbrev Row := List (String × ℚ)

/-- The aggregated `metrics_data` dict of src/apple.py:102 (date → row). -/
abbrev Dict := List (String × Row)

/-- The stored table: one row per date (primary key `date`). -/
abbrev Store := List (String × Row)

/-- Unit conversion of src/apple.py:119-121: `value = qty` and then
`value /= 4.184` exactly when the metric name is `dietary_energy`. -/
def convValue (name : String) (qty : ℚ) : ℚ :=
  if name = "dietary_energy" then qty / 4.184 else qty

/-- `metrics_data[d][name] = v` with the defaulting of src/apple.py:116-117
(`if metric_date not in metrics_data: metrics_data[metric_date] = {}`). -/
def upd2 (md : Dict) (d name : String) (v : ℚ) : Dict :=
  match lookupA md d with
  | none => updA md d [(name, v)]
  | some row => updA md d (updA row name v)

/-- Inner loop of src/apple.py:112-124: fold one metric's samples into the
aggregation state (dict, processed_count), failing on a malformed timestamp. -/
def aggData (name : String) (st : Dict × Nat) :
    List MetricData → Except Err (Dict × Nat)
  | [] => .ok st
  | dp :: rest =>
    match strptime_date dp.date with
    | none => .error (.parseError dp.date)
    | some d => aggData name (upd2 st.1 d name (convValue name dp.qty), st.2 + 1) rest

/-- One iteration of the outer loop of src/apple.py:105-124: skip a metric
whose name is not allow-listed (`continue` with a logged warning), otherwise
fold its samples. -/
def aggMetric (allowed : List String) (st : Dict × Nat) (m : Metric) :
    Except Err (Dict × Nat) :=
  if m.name ∈ allowed then aggData m.name st m.data else .ok st

/-- Outer loop of src/apple.py:105-124 starting from state `st`. -/
def aggregateFrom (allowed : List String) (st : Dict × Nat) :
    List Metric → Except Err (Dict × Nat)
  | [] => .ok st
  | m :: rest =>
    match aggMetric allowed st m with
    | .error e => .error e
    | .ok st' => aggregateFrom allowed st' rest

/-- Aggregation phase of `process_metrics` (src/apple.py:101-124): starts from
an empty dict and processed count 0. -/
def aggregate (metrics : List Metric) (allowed : List String) :
    Except Err (Dict × Nat) :=
  aggregateFrom allowed ([], 0) metrics

/-- The SQL statement built at src/apple.py:136-151:
`INSERT INTO table (date, columns...) VALUES (...) ON CONFLICT (date) DO
UPDATE SET col = EXCLUDED.col` for each col in `columns`. -/
structure UpsertStmt where
  table : String
  insertCols : List String
  keyVal : String
  setCols : List String
  setVals : List ℚ
deriving DecidableEq

/-- Build the statement for one date: `columns = list(date_metrics.keys())`
(src/apple.py:132), insert column list `(date, {columns})` (src/apple.py:137),
update clause over the same `columns` (src/apple.py:145-150). -/
def buildStmt (table d : String) (row : Row) : UpsertStmt :=
  { table := table
    insertCols := "date" :: row.map Prod.fst
    keyVal := d
    setCols := row.map Prod.fst
    setVals := row.map Prod.snd }

/-- Merge the incoming column values into an existing row (the effect of the
`DO UPDATE SET col = EXCLUDED.col` clause: listed columns only). -/
def mergeRow (old incoming : Row) : Row :=
  incoming.foldl (fun acc p => updA acc p.1 p.2) old

/-- Upsert one row: fresh key inserts exactly the given columns (others NULL);
an existing key has only the listed columns overwritten. -/
def applyRow (store : Store) (d : String) (row : Row) : Store :=
  match lookupA store d with
  | none => updA store d row
  | some old => updA store d (mergeRow old row)

/-- PostgreSQL semantics of executing one built upsert statement. -/
def execStmt (store : Store) (stmt : UpsertStmt) : Store :=
  applyRow store stmt.keyVal (stmt.setCols.zip stmt.setVals)

/-- Write loop of src/apple.py:131-164: one statement per aggregated date,
executed on the open transaction; a `psycopg.Error` (modelled by the oracle
`dbFail`) re-raises and aborts the loop. -/
def writeAll (dbFail : String → Row → Bool) (table : String) (store : Store) :
    Dict → Except Err Store
  | [] => .ok store
  | (d, row) :: rest =>
    if dbFail d row then .error .storeError
    else writeAll dbFail table (execStmt store (buildStmt table d row)) rest

/-- `process_metrics` (src/apple.py:92-175): aggregate all samples (the parse
loop completes before the connection is opened), then write one upsert per
date inside one transaction; `conn.commit()` runs only after every row
succeeded (src/apple.py:166), and the connection context manager rolls back
on any exception, so the committed store is unchanged on failure.  Returns the
committed store together with the processed count or the raised error. -/
def process_metrics (dbFail : String → Row → Bool) (metrics : List Metric)
    (allowed_metrics : List String) (table_name : String) (store : Store) :
    Store × Except Err Nat :=
  match aggregate metrics allowed_metrics with
  | .error e => (store, .error e)
  | .ok (md, n) =>
    match writeAll dbFail table_name store md with
    | .error e => (store, .error e)
    | .ok store' => (store', .ok n)

/-- Oracle for runs in which no database write fails. -/
def noFail : String → Row → Bool := fun _ _ => false

/-- A flat sleep record (Python dict) of the pull pipeline; values are opaque
scalars. -/
abbrev SleepRec := List (String × String)

/-- Evaluate a Python list comprehension whose body may raise: produce the
list of results, or `none` as soon as one element fails. -/
def mapO {α β : Type} (f : α → Option β) : List α → Option (List β)
  | [] => some []
  | a :: rest =>
    match f a, mapO f rest with
    | some b, some bs => some (b :: bs)
    | _, _ => none

/-- `upsert_sleep_data` (main.py:54-63): take the first record's key list as
the column list, build the bulk statement, and extract
`[[item[col] for col in columns] for item in data]`; `data[0]` on an empty
list raises `IndexError`, and a record lacking one of the first record's keys
raises `KeyError` before `execute_values` runs.  Returns the column list and
row values handed to `execute_values`. -/
def upsert_sleep_data (data : List SleepRec) :
    Except Err (List String × List (List String)) :=
  match data with
  | [] => .error .indexError
  | first :: _ =>
    let columns := first.map Prod.fst
    match mapO (fun item => mapO (fun c => lookupA item c) columns) data with
    | none => .error .keyError
    | some vals => .ok (columns, vals)

/-- The 19 fields of a normalized sleep record (main.py:25-49, in source
order; the commented-out fields are not included). -/
def sleep_fields : List String :=
  ["id", "average_breath", "average_heart_rate", "average_hrv", "awake_time",
   "bedtime_end", "bedtime_start", "day", "deep_sleep_duration", "efficiency",
   "latency", "light_sleep_duration", "lowest_heart_rate", "rem_sleep_duration",
   "restless_periods", "sleep_score_delta", "time_in_bed",
   "total_sleep_duration", "type"]

/-- `prepare_sleep_data` (main.py:22-51): build, for each raw record, a dict
with exactly the fields of `sleep_fields` in that order; `item[...]` on a
missing field raises `KeyError`. -/
def prepare_sleep_data (data : List SleepRec) : Except Err (List SleepRec) :=
  match mapO
      (fun item => mapO (fun f => (lookupA item f).map (fun v => (f, v))) sleep_fields)
      data with
  | none => .error .keyError
  | some recs => .ok recs

deriving instance DecidableEq for Except

/-- Observed content of the stored table: the value of column `c` in the row
keyed by date `d` (`none` = row absent or column NULL). -/
def colValue (s : Store) (d c : String) : Option ℚ :=
  match lookupA s d with
  | none => none
  | some row => lookupA row c

/-- Net effect on the store of the write loop when no write fails: the upserts
of all aggregated dates, in order. -/
def applyRows (s : Store) (md : Dict) : Store :=
  md.foldl (fun acc p => applyRow acc p.1 p.2) s

/-- Well-formedness of a date-keyed dict of rows: dates are distinct and each
row's column names are distinct (automatic for Python dicts and for database
tables). -/
def WFDict (md : Dict) : Prop :=
  (keysA md).Nodup ∧ ∀ p ∈ md, (keysA p.2).Nodup

theorem lookupA_updA_self {α : Type} (l : List (String × α)) (k : String) (v : α) :
    lookupA (updA l k v) k = some v := by
  induction l with
  | nil => simp [updA, lookupA]
  | cons p rest ih =>
    obtain ⟨a, b⟩ := p
    by_cases h : a = k
    · simp [updA, h, lookupA]
    · simp [updA, h, lookupA, ih]

theorem lookupA_updA_ne {α : Type} (l : List (String × α)) (k k' : String) (v : α)
    (h : k' ≠ k) : lookupA (updA l k v) k' = lookupA l k' := by
  induction l with
  | nil =>
    simp only [updA, lookupA]
    rw [if_neg fun hh => h hh.symm]
  | cons p rest ih =>
    obtain ⟨a, b⟩ := p
    by_cases hp : a = k
    · subst hp
      simp only [updA, if_pos rfl, lookupA]
      rw [if_neg (fun hh => h hh.symm), if_neg (fun hh => h hh.symm)]
    · simp only [updA, if_neg hp, lookupA]
      by_cases hk : a = k'
      · rw [if_pos hk, if_pos hk]
      · rw [if_neg hk, if_neg hk, ih]

theorem updA_self_eq {α : Type} (l : List (String × α)) (k : String) (v : α)
    (h : lookupA l k = some v) : updA l k v = l := by
  induction l with
  | nil => simp [lookupA] at h
  | cons p rest ih =>
    obtain ⟨a, b⟩ := p
    by_cases hp : a = k
    · subst hp
      simp only [lookupA, eq_self_iff_true, if_true, Option.some.injEq] at h
      subst h
      simp [updA]
    · simp only [lookupA, if_neg hp] at h
      simp [updA, hp, ih h]

theorem keysA_updA {α : Type} (l : List (String × α)) (k : String) (v : α) :
    keysA (updA l k v) = if k ∈ keysA l then keysA l else keysA l ++ [k] := by
  induction l with
  | nil => simp [updA, keysA]
  | cons p rest ih =>
    obtain ⟨a, b⟩ := p
    by_cases hp : a = k
    · subst hp
      simp [updA, keysA]
    · simp only [updA, if_neg hp, keysA, List.map_cons]
      simp only [keysA] at ih
      rw [ih]
      have hka : ¬k = a := fun hh => hp hh.symm
      by_cases hk : k ∈ List.map Prod.fst rest
      · rw [if_pos hk,
          if_pos (show k ∈ a :: List.map Prod.fst rest from List.mem_cons_of_mem _ hk)]
      · rw [if_neg hk,
          if_neg (show k ∉ a :: List.map Prod.fst rest by simp [hka, hk]),
          List.cons_append]

theorem nodup_keysA_updA {α : Type} (l : List (String × α)) (k : String) (v : α)
    (h : (keysA l).Nodup) : (keysA (updA l k v)).Nodup := by
  rw [keysA_updA]
  by_cases hk : k ∈ keysA l
  · simpa [hk]
  · simp only [if_neg hk]
    simpa [List.nodup_append] using ⟨h, fun hmem => hk hmem⟩

theorem mem_updA {α : Type} (l : List (String × α)) (k : String) (v : α)
    (p : String × α) (h : p ∈ updA l k v) : p ∈ l ∨ p = (k, v) := by
  induction l with
  | nil => simp [updA] at h; simp [h]
  | cons q rest ih =>
    obtain ⟨a, b⟩ := q
    by_cases hq : a = k
    · simp only [updA, if_pos hq, List.mem_cons] at h
      rcases h with h | h
      · right; exact h
      · left; exact List.mem_cons_of_mem _ h
    · simp only [updA, if_neg hq, List.mem_cons] at h
      rcases h with h | h
      · left; exact h ▸ List.mem_cons_self _ _
      · rcases ih h with h' | h'
        · left; exact List.mem_cons_of_mem _ h'
        · right; exact h'

theorem lookupA_eq_none_iff {α : Type} (l : List (String × α)) (k : String) :
    lookupA l k = none ↔ k ∉ keysA l := by
  induction l with
  | nil => simp [lookupA, keysA]
  | cons p rest ih =>
    obtain ⟨a, b⟩ := p
    by_cases hp : a = k
    · simp [lookupA, hp, keysA]
    · simp only [lookupA, if_neg hp, keysA, List.map_cons, List.mem_cons]
      simp only [keysA] at ih
      rw [ih]
      have hka : ¬k = a := fun hh => hp hh.symm
      constructor
      · intro hk hor
        rcases hor with h1 | h2
        · exact hka h1
        · exact hk h2
      · intro hk h2
        exact hk (Or.inr h2)

theorem lookupA_mem {α : Type} (l : List (String × α)) (k : String) (v : α)
    (h : lookupA l k = some v) : (k, v) ∈ l := by
  induction l with
  | nil => simp [lookupA] at h
  | cons p rest ih =>
    obtain ⟨a, b⟩ := p
    by_cases hp : a = k
    · subst hp
      simp only [lookupA, eq_self_iff_true, if_true, Option.some.injEq] at h
      subst h
      exact List.mem_cons_self _ _
    · simp only [lookupA, if_neg hp] at h
      exact List.mem_cons_of_mem _ (ih h)

theorem lookupA_of_mem_nodup {α : Type} (l : List (String × α)) (k : String) (v : α)
    (hnd : (keysA l).Nodup) (h : (k, v) ∈ l) : lookupA l k = some v := by
  induction l with
  | nil => simp at h
  | cons p rest ih =>
    obtain ⟨a, b⟩ := p
    simp only [keysA, List.map_cons, List.nodup_cons] at hnd
    rcases List.mem_cons.mp h with h' | h'
    · obtain ⟨rfl, rfl⟩ := Prod.mk.injEq .. ▸ And.intro (congrArg Prod.fst h') (congrArg Prod.snd h')
      simp [lookupA]
    · have hak : ¬a = k := by
        intro hk
        subst hk
        exact hnd.1 (List.mem_map_of_mem Prod.fst h')
      simp only [lookupA, if_neg hak]
      exact ih hnd.2 h'

theorem mergeRow_nil (old : Row) : mergeRow old [] = old := rfl

theorem mergeRow_cons (old : Row) (p : String × ℚ) (rest : Row) :
    mergeRow old (p :: rest) = mergeRow (updA old p.1 p.2) rest := rfl

theorem lookupA_mergeRow_of_notMem (old r : Row) (k : String)
    (h : k ∉ keysA r) : lookupA (mergeRow old r) k = lookupA old k := by
  induction r generalizing old with
  | nil => rfl
  | cons p rest ih =>
    simp only [keysA, List.map_cons, List.mem_cons] at h
    push_neg at h
    rw [mergeRow_cons, ih (updA old p.1 p.2) (by simpa [keysA] using h.2),
      lookupA_updA_ne _ _ _ _ h.1]

theorem lookupA_mergeRow_self (old r : Row) (k : String) (v : ℚ)
    (hnd : (keysA r).Nodup) (h : (k, v) ∈ r) :
    lookupA (mergeRow old r) k = some v := by
  induction r generalizing old with
  | nil => simp at h
  | cons p rest ih =>
    obtain ⟨a, b⟩ := p
    simp only [keysA, List.map_cons, List.nodup_cons] at hnd
    rw [mergeRow_cons]
    rcases List.mem_cons.mp h with h' | h'
    · obtain ⟨rfl, rfl⟩ := Prod.mk.injEq .. ▸ And.intro (congrArg Prod.fst h') (congrArg Prod.snd h')
      rw [lookupA_mergeRow_of_notMem _ _ _ (by simpa [keysA] using hnd.1)]
      exact lookupA_updA_self _ _ _
    · exact ih (updA old a b) hnd.2 h'

theorem mergeRow_eq_self (y r : Row) (h : ∀ p ∈ r, lookupA y p.1 = some p.2) :
    mergeRow y r = y := by
  induction r with
  | nil => rfl
  | cons p rest ih =>
    rw [mergeRow_cons, updA_self_eq _ _ _ (h p (List.mem_cons_self _ _))]
    exact ih fun q hq => h q (List.mem_cons_of_mem _ hq)

theorem mergeRow_idem (x r : Row) (hnd : (keysA r).Nodup) :
    mergeRow (mergeRow x r) r = mergeRow x r :=
  mergeRow_eq_self _ _ fun p hp => lookupA_mergeRow_self x r p.1 p.2 hnd hp

theorem nodup_keysA_mergeRow (old r : Row) (h : (keysA old).Nodup) :
    (keysA (mergeRow old r)).Nodup := by
  induction r generalizing old with
  | nil => exact h
  | cons p rest ih =>
    rw [mergeRow_cons]
    exact ih _ (nodup_keysA_updA _ _ _ h)

theorem lookupA_applyRow_ne (s : Store) (d d' : String) (row : Row)
    (h : d' ≠ d) : lookupA (applyRow s d row) d' = lookupA s d' := by
  unfold applyRow
  cases lookupA s d with
  | none => exact lookupA_updA_ne _ _ _ _ h
  | some old => exact lookupA_updA_ne _ _ _ _ h

theorem lookupA_applyRow_self (s : Store) (d : String) (row : Row) :
    lookupA (applyRow s d row) d =
      some (match lookupA s d with
            | none => row
            | some old => mergeRow old row) := by
  unfold applyRow
  cases lookupA s d with
  | none => exact lookupA_updA_self _ _ _
  | some old => exact lookupA_updA_self _ _ _

theorem applyRows_nil (s : Store) : applyRows s [] = s := rfl

theorem applyRows_cons (s : Store) (p : String × Row) (rest : Dict) :
    applyRows s (p :: rest) = applyRows (applyRow s p.1 p.2) rest := rfl

theorem lookupA_applyRows_of_notMem (s : Store) (md : Dict) (d : String)
    (h : d ∉ keysA md) : lookupA (applyRows s md) d = lookupA s d := by
  induction md generalizing s with
  | nil => rfl
  | cons p rest ih =>
    simp only [keysA, List.map_cons, List.mem_cons] at h
    push_neg at h
    rw [applyRows_cons, ih _ (by simpa [keysA] using h.2),
      lookupA_applyRow_ne _ _ _ _ h.1]

theorem aggData_nil (name : String) (st : Dict × Nat) :
    aggData name st [] = .ok st := rfl

theorem aggData_cons (name : String) (st : Dict × Nat) (dp : MetricData)
    (rest : List MetricData) :
    aggData name st (dp :: rest) =
      match strptime_date dp.date with
      | none => .error (.parseError dp.date)
      | some d =>
        aggData name (upd2 st.1 d name (convValue name dp.qty), st.2 + 1) rest := rfl

theorem aggregateFrom_nil (allowed : List String) (st : Dict × Nat) :
    aggregateFrom allowed st [] = .ok st := rfl

theorem aggregateFrom_cons (allowed : List String) (st : Dict × Nat) (m : Metric)
    (rest : List Metric) :
    aggregateFrom allowed st (m :: rest) =
      match aggMetric allowed st m with
      | .error e => .error e
      | .ok st' => aggregateFrom allowed st' rest := rfl

theorem aggregateFrom_append (allowed : List String) (st : Dict × Nat)
    (a b : List Metric) :
    aggregateFrom allowed st (a ++ b) =
      match aggregateFrom allowed st a with
      | .error e => .error e
      | .ok st' => aggregateFrom allowed st' b := by
  induction a generalizing st with
  | nil => simp [aggregateFrom_nil]
  | cons m rest ih =>
    rw [List.cons_append, aggregateFrom_cons, aggregateFrom_cons]
    cases aggMetric allowed st m with
    | error e => rfl
    | ok st' => exact ih st'

theorem aggData_error_of_bad (name : String) (st : Dict × Nat)
    (data : List MetricData) (dp : MetricData) (hdp : dp ∈ data)
    (hbad : strptime_date dp.date = none) :
    ∃ ts, aggData name st data = .error (.parseError ts) := by
  induction data generalizing st with
  | nil => simp at hdp
  | cons q rest ih =>
    rw [aggData_cons]
    cases hq : strptime_date q.date with
    | none => exact ⟨q.date, rfl⟩
    | some d =>
      rcases List.mem_cons.mp hdp with rfl | h'
      · rw [hq] at hbad; cases hbad
      · exact ih _ h'

theorem aggData_error_shape (name : String) (st : Dict × Nat)
    (data : List MetricData) (e : Err) (h : aggData name st data = .error e) :
    ∃ ts, e = .parseError ts := by
  induction data generalizing st with
  | nil => rw [aggData_nil] at h; cases h
  | cons q rest ih =>
    rw [aggData_cons] at h
    cases hq : strptime_date q.date with
    | none =>
      rw [hq] at h
      cases h
      exact ⟨q.date, rfl⟩
    | some d =>
      rw [hq] at h
      exact ih _ h

theorem aggMetric_error_shape (allowed : List String) (st : Dict × Nat)
    (m : Metric) (e : Err) (h : aggMetric allowed st m = .error e) :
    ∃ ts, e = .parseError ts := by
  unfold aggMetric at h
  by_cases hmem : m.name ∈ allowed
  · rw [if_pos hmem] at h
    exact aggData_error_shape _ _ _ _ h
  · rw [if_neg hmem] at h
    cases h

theorem aggregateFrom_error_of_bad (allowed : List String) (st : Dict × Nat)
    (metrics : List Metric) (m : Metric) (dp : MetricData)
    (hm : m ∈ metrics) (hname : m.name ∈ allowed) (hdp : dp ∈ m.data)
    (hbad : strptime_date dp.date = none) :
    ∃ ts, aggregateFrom allowed st metrics = .error (.parseError ts) := by
  induction metrics generalizing st with
  | nil => simp at hm
  | cons q rest ih =>
    rw [aggregateFrom_cons]
    rcases List.mem_cons.mp hm with rfl | h'
    · obtain ⟨ts, hts⟩ := aggData_error_of_bad m.name st m.data dp hdp hbad
      unfold aggMetric
      rw [if_pos hname, hts]
      exact ⟨ts, rfl⟩
    · cases hq : aggMetric allowed st q with
      | error e =>
        obtain ⟨ts, rfl⟩ := aggMetric_error_shape _ _ _ _ hq
        exact ⟨ts, rfl⟩
      | ok st' => exact ih st' h'

theorem WFDict_nil : WFDict [] :=
  ⟨List.nodup_nil, by simp⟩

theorem WFDict_upd2 (md : Dict) (d name : String) (v : ℚ) (h : WFDict md) :
    WFDict (upd2 md d name v) := by
  unfold upd2
  cases hl : lookupA md d with
  | none =>
    refine ⟨nodup_keysA_updA _ _ _ h.1, ?_⟩
    intro p hp
    rcases mem_updA _ _ _ p hp with h' | h'
    · exact h.2 p h'
    · subst h'
      simp [keysA]
  | some row =>
    refine ⟨nodup_keysA_updA _ _ _ h.1, ?_⟩
    intro p hp
    rcases mem_updA _ _ _ p hp with h' | h'
    · exact h.2 p h'
    · subst h'
      exact nodup_keysA_updA _ _ _ (h.2 (d, row) (lookupA_mem _ _ _ hl))

theorem WFDict_aggData (name : String) (st st' : Dict × Nat)
    (data : List MetricData) (h : aggData name st data = .ok st')
    (hwf : WFDict st.1) : WFDict st'.1 := by
  induction data generalizing st with
  | nil =>
    rw [aggData_nil] at h
    cases h
    exact hwf
  | cons q rest ih =>
    rw [aggData_cons] at h
    cases hq : strptime_date q.date with
    | none => rw [hq] at h; cases h
    | some d =>
      rw [hq] at h
      exact ih _ h (WFDict_upd2 _ _ _ _ hwf)

theorem WFDict_aggMetric (allowed : List String) (st st' : Dict × Nat)
    (m : Metric) (h : aggMetric allowed st m = .ok st')
    (hwf : WFDict st.1) : WFDict st'.1 := by
  unfold aggMetric at h
  by_cases hmem : m.name ∈ allowed
  · rw [if_pos hmem] at h
    exact WFDict_aggData _ _ _ _ h hwf
  · rw [if_neg hmem] at h
    cases h
    exact hwf

theorem WFDict_aggregateFrom (allowed : List String) (st st' : Dict × Nat)
    (metrics : List Metric) (h : aggregateFrom allowed st metrics = .ok st')
    (hwf : WFDict st.1) : WFDict st'.1 := by
  induction metrics generalizing st with
  | nil =>
    rw [aggregateFrom_nil] at h
    cases h
    exact hwf
  | cons m rest ih =>
    rw [aggregateFrom_cons] at h
    cases hq : aggMetric allowed st m with
    | error e => rw [hq] at h; cases h
    | ok st'' =>
      rw [hq] at h
      exact ih _ h (WFDict_aggMetric _ _ _ _ hq hwf)

theorem WFDict_aggregate (metrics : List Metric) (allowed : List String)
    (md : Dict) (n : Nat) (h : aggregate metrics allowed = .ok (md, n)) :
    WFDict md :=
  WFDict_aggregateFrom allowed ([], 0) (md, n) metrics h WFDict_nil

theorem execStmt_buildStmt (s : Store) (t d : String) (row : Row) :
    execStmt s (buildStmt t d row) = applyRow s d row := by
  unfold execStmt buildStmt
  simp only []
  rw [List.zip_map']
  simp

theorem writeAll_nil (dbFail : String → Row → Bool) (t : String) (s : Store) :
    writeAll dbFail t s [] = .ok s := rfl

theorem writeAll_cons (dbFail : String → Row → Bool) (t : String) (s : Store)
    (d : String) (row : Row) (rest : Dict) :
    writeAll dbFail t s ((d, row) :: rest) =
      if dbFail d row then .error .storeError
      else writeAll dbFail t (execStmt s (buildStmt t d row)) rest := rfl

theorem writeAll_noFail (t : String) (s : Store) (md : Dict) :
    writeAll noFail t s md = .ok (applyRows s md) := by
  induction md generalizing s with
  | nil => rfl
  | cons p rest ih =>
    obtain ⟨d, row⟩ := p
    rw [writeAll_cons, if_neg (by simp [noFail]), execStmt_buildStmt,
      applyRows_cons]
    exact ih _

theorem writeAll_error_of_fail (dbFail : String → Row → Bool) (t : String)
    (s : Store) (md : Dict) (h : ∃ p ∈ md, dbFail p.1 p.2 = true) :
    writeAll dbFail t s md = .error .storeError := by
  induction md generalizing s with
  | nil => simp at h
  | cons p rest ih =>
    obtain ⟨d, row⟩ := p
    rw [writeAll_cons]
    by_cases hf : dbFail d row = true
    · rw [if_pos hf]
    · rw [if_neg hf]
      obtain ⟨q, hq, hfq⟩ := h
      rcases List.mem_cons.mp hq with rfl | h'
      · exact absurd hfq hf
      · exact ih _ ⟨q, h', hfq⟩

theorem colValue_applyRow_frame (s : Store) (d d' c : String) (row : Row)
    (h : d' ≠ d ∨ lookupA row c = none) :
    colValue (applyRow s d row) d' c = colValue s d' c := by
  rcases h with h | h
  · unfold colValue
    rw [lookupA_applyRow_ne _ _ _ _ h]
  · by_cases hd : d' = d
    · subst hd
      unfold colValue
      rw [lookupA_applyRow_self]
      cases hs : lookupA s d' with
      | none => simpa using h
      | some old =>
        simpa using lookupA_mergeRow_of_notMem old row c
          ((lookupA_eq_none_iff row c).mp h)
    · unfold colValue
      rw [lookupA_applyRow_ne _ _ _ _ hd]

theorem colValue_applyRow_self_mem (s : Store) (d k : String) (row : Row)
    (v : ℚ) (hnd : (keysA row).Nodup) (h : (k, v) ∈ row) :
    colValue (applyRow s d row) d k = some v := by
  unfold colValue
  rw [lookupA_applyRow_self]
  cases lookupA s d with
  | none => simpa using lookupA_of_mem_nodup _ _ _ hnd h
  | some old => simpa using lookupA_mergeRow_self old row k v hnd h

theorem applyRows_pair (s : Store) (d : String) (row : Row) (rest : Dict) :
    applyRows s ((d, row) :: rest) = applyRows (applyRow s d row) rest := rfl

theorem WFDict_of_cons (d0 : String) (r0 : Row) (rest : Dict)
    (hwf : WFDict ((d0, r0) :: rest)) :
    d0 ∉ keysA rest ∧ WFDict rest := by
  have h1 := hwf.1
  simp only [keysA, List.map_cons, List.nodup_cons] at h1
  refine ⟨by simpa [keysA] using h1.1, h1.2, ?_⟩
  exact fun q hq => hwf.2 q (List.mem_cons_of_mem _ hq)

theorem colValue_applyRows_of_mem (s : Store) (md : Dict) (d : String)
    (r : Row) (k : String) (v : ℚ) (hwf : WFDict md) (hmem : (d, r) ∈ md)
    (hkv : (k, v) ∈ r) : colValue (applyRows s md) d k = some v := by
  induction md generalizing s with
  | nil => simp at hmem
  | cons p rest ih =>
    obtain ⟨d0, r0⟩ := p
    obtain ⟨hnd0, hwfrest⟩ := WFDict_of_cons d0 r0 rest hwf
    rcases List.mem_cons.mp hmem with he | h'
    · obtain ⟨hd, hr2⟩ : d = d0 ∧ r = r0 :=
        ⟨congrArg Prod.fst he, congrArg Prod.snd he⟩
      rw [hd]
      rw [applyRows_pair]
      unfold colValue
      rw [lookupA_applyRows_of_notMem _ _ _ hnd0, lookupA_applyRow_self]
      have hr : (keysA r0).Nodup := hwf.2 (d0, r0) (List.mem_cons_self _ _)
      have hkv0 : (k, v) ∈ r0 := hr2 ▸ hkv
      cases lookupA s d0 with
      | none => simpa using lookupA_of_mem_nodup _ _ _ hr hkv0
      | some old => simpa using lookupA_mergeRow_self old r0 k v hr hkv0
    · rw [applyRows_pair]
      exact ih (applyRow s d0 r0) hwfrest h'

theorem applyRows_absorbed (s : Store) (md : Dict) (hwf : WFDict md) :
    ∀ p ∈ md, ∃ y, lookupA (applyRows s md) p.1 = some y ∧ mergeRow y p.2 = y := by
  induction md generalizing s with
  | nil => intro p hp; simp at hp
  | cons q rest ih =>
    obtain ⟨d0, r0⟩ := q
    obtain ⟨hnd0, hwfrest⟩ := WFDict_of_cons d0 r0 rest hwf
    intro p hp
    rcases List.mem_cons.mp hp with rfl | h'
    · show ∃ y, lookupA (applyRows s ((d0, r0) :: rest)) d0 = some y ∧
        mergeRow y r0 = y
      rw [applyRows_pair, lookupA_applyRows_of_notMem _ _ _ hnd0,
        lookupA_applyRow_self]
      have hr : (keysA r0).Nodup := hwf.2 (d0, r0) (List.mem_cons_self _ _)
      cases lookupA s d0 with
      | none =>
        refine ⟨r0, rfl, mergeRow_eq_self _ _ fun q hq => ?_⟩
        have hq' : (q.1, q.2) ∈ r0 := by simpa using hq
        exact lookupA_of_mem_nodup _ _ _ hr hq'
      | some old => exact ⟨mergeRow old r0, rfl, mergeRow_idem _ _ hr⟩
    · rw [applyRows_pair]
      exact ih (applyRow s d0 r0) hwfrest p h'

theorem applyRows_eq_self (S : Store) (md : Dict)
    (h : ∀ p ∈ md, ∃ y, lookupA S p.1 = some y ∧ mergeRow y p.2 = y) :
    applyRows S md = S := by
  induction md with
  | nil => rfl
  | cons q rest ih =>
    obtain ⟨d0, r0⟩ := q
    obtain ⟨y, hy, hm⟩ := h (d0, r0) (List.mem_cons_self _ _)
    have hy' : lookupA S d0 = some y := hy
    have hm' : mergeRow y r0 = y := hm
    rw [applyRows_pair]
    have happ : applyRow S d0 r0 = S := by
      show (match lookupA S d0 with
            | none => updA S d0 r0
            | some old => updA S d0 (mergeRow old r0)) = S
      rw [hy']
      show updA S d0 (mergeRow y r0) = S
      rw [hm']
      exact updA_self_eq _ _ _ hy'
    rw [happ]
    exact ih fun p hp => h p (List.mem_cons_of_mem _ hp)

theorem applyRows_idem (s : Store) (md : Dict) (hwf : WFDict md) :
    applyRows (applyRows s md) md = applyRows s md :=
  applyRows_eq_self _ _ (applyRows_absorbed s md hwf)


theorem lookupA_upd2_self (md : Dict) (d name : String) (v : ℚ) :
    ∃ row, lookupA (upd2 md d name v) d = some row ∧ lookupA row name = some v := by
  unfold upd2
  cases lookupA md d with
  | none => exact ⟨[(name, v)], lookupA_updA_self _ _ _, by simp [lookupA]⟩
  | some row0 =>
    exact ⟨updA row0 name v, lookupA_updA_self _ _ _, lookupA_updA_self _ _ _⟩

theorem aggregate_single (name ts : String) (q : ℚ) (d : String)
    (allowed : List String) (hmem : name ∈ allowed)
    (hts : strptime_date ts = some d) :
    aggregate [⟨name, [⟨ts, q⟩]⟩] allowed
      = .ok ([(d, [(name, convValue name q)])], 1) := by
  simp [aggregate, aggregateFrom, aggMetric, hmem, aggData, hts, upd2, lookupA,
    updA]

theorem stored_colValue_of_aggregate (metrics : List Metric)
    (allowed : List String) (table : String) (s : Store) (md : Dict) (n : Nat)
    (hagg : aggregate metrics allowed = .ok (md, n)) (d : String) (r : Row)
    (k : String) (v : ℚ) (hd : (d, r) ∈ md) (hk : (k, v) ∈ r) :
    colValue (process_metrics noFail metrics allowed table s).1 d k = some v := by
  unfold process_metrics
  rw [hagg]
  show colValue
      (match writeAll noFail table s md with
        | Except.error e => (s, Except.error e)
        | Except.ok store' => (store', Except.ok n)).1 d k = some v
  rw [writeAll_noFail]
  show colValue (applyRows s md) d k = some v
  exact colValue_applyRows_of_mem s md d r k v
    (WFDict_aggregate _ _ _ _ hagg) hd hk

theorem mapO_nil {α β : Type} (f : α → Option β) : mapO f [] = some [] := rfl

theorem mapO_cons {α β : Type} (f : α → Option β) (a : α) (rest : List α) :
    mapO f (a :: rest) =
      match f a, mapO f rest with
      | some b, some bs => some (b :: bs)
      | _, _ => none := rfl

theorem mapO_eq_none_of_mem {α β : Type} (f : α → Option β) (l : List α)
    (a : α) (ha : a ∈ l) (hf : f a = none) : mapO f l = none := by
  induction l with
  | nil => simp at ha
  | cons b rest ih =>
    rw [mapO_cons]
    rcases List.mem_cons.mp ha with rfl | h'
    · rw [hf]
    · rw [ih h']
      cases f b <;> rfl

theorem mapO_eq_some_of_forall {α β : Type} (f : α → Option β) (l : List α)
    (h : ∀ a ∈ l, ∃ b, f a = some b) : ∃ bs, mapO f l = some bs := by
  induction l with
  | nil => exact ⟨[], rfl⟩
  | cons a rest ih =>
    obtain ⟨b, hb⟩ := h a (List.mem_cons_self _ _)
    obtain ⟨bs, hbs⟩ := ih fun x hx => h x (List.mem_cons_of_mem _ hx)
    exact ⟨b :: bs, by rw [mapO_cons, hb, hbs]⟩

theorem mapO_mem {α β : Type} (f : α → Option β) (l : List α) (bs : List β)
    (h : mapO f l = some bs) (b : β) (hb : b ∈ bs) : ∃ a ∈ l, f a = some b := by
  induction l generalizing bs with
  | nil =>
    rw [mapO_nil] at h
    cases h
    simp at hb
  | cons a rest ih =>
    rw [mapO_cons] at h
    cases hfa : f a with
    | none => rw [hfa] at h; cases h
    | some b0 =>
      rw [hfa] at h
      cases hrest : mapO f rest with
      | none => rw [hrest] at h; cases h
      | some bs0 =>
        rw [hrest] at h
        cases h
        rcases List.mem_cons.mp hb with rfl | h'
        · exact ⟨a, List.mem_cons_self _ _, hfa⟩
        · obtain ⟨x, hx, hfx⟩ := ih bs0 hrest h'
          exact ⟨x, List.mem_cons_of_mem _ hx, hfx⟩

theorem mapO_rec_keys (item : SleepRec) (fields : List String) (rec : SleepRec)
    (h : mapO (fun f => (lookupA item f).map (fun v => (f, v))) fields = some rec) :
    keysA rec = fields := by
  induction fields generalizing rec with
  | nil =>
    rw [mapO_nil] at h
    cases h
    rfl
  | cons f rest ih =>
    rw [mapO_cons] at h
    cases hf : lookupA item f with
    | none =>
      rw [hf] at h
      simp only [Option.map_none'] at h
      cases h
    | some v =>
      rw [hf] at h
      simp only [Option.map_some'] at h
      cases hrest : mapO (fun f => (lookupA item f).map (fun v => (f, v))) rest with
      | none => rw [hrest] at h; cases h
      | some rec0 =>
        rw [hrest] at h
        cases h
        have hk := ih rec0 hrest
        simp only [keysA, List.map_cons] at hk ⊢
        rw [hk]


theorem process_metrics_error (dbFail : String → Row → Bool)
    (metrics : List Metric) (allowed : List String) (table : String)
    (s : Store) (e : Err) (hagg : aggregate metrics allowed = .error e) :
    process_metrics dbFail metrics allowed table s = (s, .error e) := by
  unfold process_metrics
  rw [hagg]

theorem process_metrics_noFail_ok (metrics : List Metric)
    (allowed : List String) (table : String) (s : Store) (md : Dict) (n : Nat)
    (hagg : aggregate metrics allowed = .ok (md, n)) :
    process_metrics noFail metrics allowed table s = (applyRows s md, .ok n) := by
  unfold process_metrics
  rw [hagg]
  show (match writeAll noFail table s md with
        | Except.error e => (s, Except.error e)
        | Except.ok store' => (store', Except.ok n)) = _
  rw [writeAll_noFail]

theorem upsert_ok_of_forall (first : SleepRec) (rest : List SleepRec)
    (hall : ∀ rec ∈ first :: rest, ∀ k ∈ keysA first,
      (lookupA rec k).isSome = true) :
    ∃ vals, upsert_sleep_data (first :: rest) = .ok (keysA first, vals) := by
  obtain ⟨vals, hvals⟩ := mapO_eq_some_of_forall
    (fun item => mapO (fun c => lookupA item c) (first.map Prod.fst))
    (first :: rest)
    (fun item hitem => mapO_eq_some_of_forall _ _
      (fun c hc => Option.isSome_iff_exists.mp (hall item hitem c hc)))
  refine ⟨vals, ?_⟩
  show (match mapO (fun item => mapO (fun c => lookupA item c)
          (first.map Prod.fst)) (first :: rest) with
        | none => Except.error Err.keyError
        | some vals => Except.ok (first.map Prod.fst, vals)) = _
  rw [hvals]
  rfl

theorem upsert_err_of_missing (first : SleepRec) (rest : List SleepRec)
    (rec : SleepRec) (k : String) (hrec : rec ∈ first :: rest)
    (hk : k ∈ keysA first) (hnone : lookupA rec k = none) :
    upsert_sleep_data (first :: rest) = .error .keyError := by
  have hn : mapO (fun item => mapO (fun c => lookupA item c)
      (first.map Prod.fst)) (first :: rest) = none :=
    mapO_eq_none_of_mem _ _ rec hrec (mapO_eq_none_of_mem _ _ k hk hnone)
  show (match mapO (fun item => mapO (fun c => lookupA item c)
          (first.map Prod.fst)) (first :: rest) with
        | none => Except.error Err.keyError
        | some vals => Except.ok (first.map Prod.fst, vals)) = _
  rw [hn]

theorem prepare_sleep_keys (data recs : List SleepRec)
    (hok : prepare_sleep_data data = .ok recs) :
    ∀ r ∈ recs, keysA r = sleep_fields := by
  intro r hr
  revert hok
  unfold prepare_sleep_data
  cases hm : mapO (fun item =>
      mapO (fun f => (lookupA item f).map (fun v => (f, v))) sleep_fields) data with
  | none => intro hok; cases hok
  | some recs0 =>
    intro hok
    cases hok
    obtain ⟨item, hitem, hfitem⟩ := mapO_mem _ _ _ hm r hr
    exact mapO_rec_keys item sleep_fields r hfitem

theorem prepare_sleep_err (data : List SleepRec) (item : SleepRec) (f : String)
    (hitem : item ∈ data) (hf : f ∈ sleep_fields)
    (hnone : lookupA item f = none) :
    prepare_sleep_data data = .error .keyError := by
  have hn : mapO (fun item =>
      mapO (fun f => (lookupA item f).map (fun v => (f, v))) sleep_fields) data
      = none :=
    mapO_eq_none_of_mem _ _ item hitem
      (mapO_eq_none_of_mem _ _ f hf (by rw [hnone]; rfl))
  show (match mapO (fun item =>
          mapO (fun f => (lookupA item f).map (fun v => (f, v))) sleep_fields)
          data with
        | none => Except.error Err.keyError
        | some recs => Except.ok recs) = _
  rw [hn]


/-- Claim C1, counterexample: a body-composition ingestion carrying only
`lean_body_mass` for 2024-08-18 (missing the other three required columns) is
NOT skipped: after the call the date is present in the target table as a
partial row, contradicting the claimed strict completeness. -/
theorem C1_counterexample_partial_date_present :
    process_metrics noFail
        [⟨"lean_body_mass", [⟨"2024-08-18 08:00:00 +0000", 60⟩]⟩]
        BODY_COMPOSITION_METRICS "body_composition" []
      = ([("2024-08-18", [("lean_body_mass", 60)])], .ok 1) ∧
    colValue (process_metrics noFail
        [⟨"lean_body_mass", [⟨"2024-08-18 08:00:00 +0000", 60⟩]⟩]
        BODY_COMPOSITION_METRICS "body_composition" []).1
        "2024-08-18" "lean_body_mass" = some 60 := by
  constructor <;> decide

/-- Claim C1, amended: `process_metrics` enforces no completeness policy for
`body_composition`: every aggregated date is written with exactly the columns
present for that date, so a date missing one or more of the four required
columns still appears in the target table as a partial row (every aggregated
column value is stored). -/
theorem C1_partial_rows_are_written
    (metrics : List Metric) (table : String) (s : Store) (md : Dict) (n : Nat)
    (d : String) (r : Row) (k : String) (v : ℚ)
    (hagg : aggregate metrics BODY_COMPOSITION_METRICS = .ok (md, n))
    (hd : (d, r) ∈ md) (hk : (k, v) ∈ r) :
    colValue
      (process_metrics noFail metrics BODY_COMPOSITION_METRICS table s).1 d k
      = some v :=
  stored_colValue_of_aggregate metrics BODY_COMPOSITION_METRICS table s md n
    hagg d r k v hd hk

/-- Witness for C1: the partial single-column batch, evaluated concretely. -/
theorem C1_partial_rows_are_written_witness :
    colValue (process_metrics noFail
        [⟨"lean_body_mass", [⟨"2024-08-18 08:00:00 +0000", 60⟩]⟩]
        BODY_COMPOSITION_METRICS "body_composition" []).1
        "2024-08-18" "lean_body_mass" = some 60 :=
  C1_partial_rows_are_written
    [⟨"lean_body_mass", [⟨"2024-08-18 08:00:00 +0000", 60⟩]⟩]
    "body_composition" [] [("2024-08-18", [("lean_body_mass", 60)])] 1
    "2024-08-18" [("lean_body_mass", 60)] "lean_body_mass" 60
    (by decide) (by decide) (by decide)

/-- Claim C2: the `ON CONFLICT ... DO UPDATE SET` clause built for a row lists
exactly the non-key columns present in that row's mapping; executing the
statement leaves any other (date, column) cell of the store unchanged; hence
writing `A=1` for a date and then `B=2` for the same date leaves both `A=1`
and `B=2` stored. -/
theorem C2_partial_update_preservation :
    (∀ (table d : String) (row : Row),
      (buildStmt table d row).setCols = keysA row) ∧
    (∀ (s : Store) (table d da c : String) (row : Row),
      da ≠ d ∨ lookupA row c = none →
      colValue (execStmt s (buildStmt table d row)) da c = colValue s da c) ∧
    (∀ (table : String) (s : Store),
      colValue (execStmt (execStmt s (buildStmt table "2024-08-18" [("A", 1)]))
          (buildStmt table "2024-08-18" [("B", 2)])) "2024-08-18" "A"
        = some 1 ∧
      colValue (execStmt (execStmt s (buildStmt table "2024-08-18" [("A", 1)]))
          (buildStmt table "2024-08-18" [("B", 2)])) "2024-08-18" "B"
        = some 2) := by
  refine ⟨fun table d row => rfl, ?_, ?_⟩
  · intro s table d da c row h
    rw [execStmt_buildStmt]
    exact colValue_applyRow_frame s d da c row h
  · intro table s
    constructor
    · rw [execStmt_buildStmt, execStmt_buildStmt,
        colValue_applyRow_frame _ _ _ _ _ (Or.inr (by decide))]
      exact colValue_applyRow_self_mem _ _ _ _ _ (by decide) (by decide)
    · rw [execStmt_buildStmt, execStmt_buildStmt]
      exact colValue_applyRow_self_mem _ _ _ _ _ (by decide) (by decide)

/-- Witness for C2: the frame part evaluated at a concrete store and row. -/
theorem C2_partial_update_preservation_witness :
    colValue (execStmt [("2024-08-18", [("A", 5)])]
        (buildStmt "diet" "2024-08-18" [("B", 2)])) "2024-08-18" "A"
      = some 5 :=
  (C2_partial_update_preservation.2.1 [("2024-08-18", [("A", 5)])] "diet"
      "2024-08-18" "2024-08-18" "A" [("B", 2)] (Or.inr (by decide))).trans
    (by decide)

/-- Claim C3: one ingestion call is idempotent: running
aggregation + upsert writing a second time on byte-identical input, starting
from the store the first call committed, returns exactly the first call's
result (same stored rows, same processed count), for every batch and every
starting store. -/
theorem C3_pipeline_idempotent (metrics : List Metric) (allowed : List String)
    (table : String) (s : Store) :
    process_metrics noFail metrics allowed table
        (process_metrics noFail metrics allowed table s).1
      = process_metrics noFail metrics allowed table s := by
  cases hagg : aggregate metrics allowed with
  | error e =>
    have h1 : process_metrics noFail metrics allowed table s = (s, .error e) :=
      process_metrics_error _ _ _ _ _ _ hagg
    rw [h1]
    exact process_metrics_error _ _ _ _ _ _ hagg
  | ok p =>
    obtain ⟨md, n⟩ := p
    have h1 : process_metrics noFail metrics allowed table s
        = (applyRows s md, .ok n) :=
      process_metrics_noFail_ok _ _ _ _ _ _ hagg
    rw [h1]
    show process_metrics noFail metrics allowed table (applyRows s md)
      = (applyRows s md, Except.ok n)
    rw [process_metrics_noFail_ok _ _ _ _ _ _ hagg,
      applyRows_idem _ _ (WFDict_aggregate _ _ _ _ hagg)]


/-- Claim C4, counterexample: a batch whose second record's key set strictly
contains the first record's key set ({id, extra} vs {id}) does NOT fail: the
write succeeds and the extra key is silently ignored, contradicting the claim
that any key-set difference from the first record fails the whole write. -/
theorem C4_counterexample_superset_accepted :
    ("extra" ∈ keysA [("id", "b"), ("extra", "x")] ∧
      "extra" ∉ keysA [("id", "a")]) ∧
    upsert_sleep_data [[("id", "a")], [("id", "b"), ("extra", "x")]]
      = .ok (["id"], [["a"], ["b"]]) := by
  constructor <;> decide

/-- Claim C4, amended: the batch write fails (with the `KeyError` raised while
extracting values, before any SQL executes, so nothing is committed) exactly
when some record LACKS a key present in the first record's key set; a record
with additional keys beyond the first record's is accepted and its extra keys
are silently dropped (the first record's key list is the only contract). -/
theorem C4_missing_key_fails :
    (∀ (first : SleepRec) (rest : List SleepRec) (rec : SleepRec) (k : String),
      rec ∈ first :: rest → k ∈ keysA first → lookupA rec k = none →
      upsert_sleep_data (first :: rest) = .error .keyError) ∧
    (∀ (first : SleepRec) (rest : List SleepRec),
      (∀ rec ∈ first :: rest, ∀ k ∈ keysA first, (lookupA rec k).isSome = true) →
      ∃ vals, upsert_sleep_data (first :: rest) = .ok (keysA first, vals)) :=
  ⟨upsert_err_of_missing, upsert_ok_of_forall⟩

/-- Witness for C4: a record missing key "x" fails the batch; a batch whose
second record has the first record's single key succeeds. -/
theorem C4_missing_key_fails_witness :
    upsert_sleep_data [[("id", "a"), ("x", "y")], [("id", "b")]]
      = .error .keyError ∧
    (∃ vals, upsert_sleep_data [[("id", "a")], [("id", "b"), ("extra", "x")]]
      = .ok (keysA [("id", "a")], vals)) :=
  ⟨C4_missing_key_fails.1 [("id", "a"), ("x", "y")] [[("id", "b")]]
      [("id", "b")] "x" (by decide) (by decide) (by decide),
    C4_missing_key_fails.2 [("id", "a")] [[("id", "b"), ("extra", "x")]]
      (by decide)⟩

/-- Claim C5: last-write-wins within a batch: appending to any batch a sample
for an allow-listed metric on a date already carrying a value for that metric
makes the aggregation end with exactly that later sample's (converted) value
for the (date, column) cell — the aggregated dict is the earlier dict updated
in place, the processed count still counts both samples (no deduplication,
no averaging) — and the stored value after the write equals that later value. -/
theorem C5_last_write_wins (metrics : List Metric) (allowed : List String)
    (table : String) (s : Store) (name ts : String) (q : ℚ) (d : String)
    (md : Dict) (n : Nat) (hmem : name ∈ allowed)
    (hts : strptime_date ts = some d)
    (hagg : aggregate metrics allowed = .ok (md, n)) :
    aggregate (metrics ++ [⟨name, [⟨ts, q⟩]⟩]) allowed
        = .ok (upd2 md d name (convValue name q), n + 1) ∧
    (∃ row, lookupA (upd2 md d name (convValue name q)) d = some row ∧
      lookupA row name = some (convValue name q)) ∧
    colValue (process_metrics noFail (metrics ++ [⟨name, [⟨ts, q⟩]⟩])
        allowed table s).1 d name = some (convValue name q) := by
  have hext : aggregate (metrics ++ [⟨name, [⟨ts, q⟩]⟩]) allowed
      = .ok (upd2 md d name (convValue name q), n + 1) := by
    unfold aggregate
    rw [aggregateFrom_append,
      show aggregateFrom allowed ([], 0) metrics
        = Except.ok ((md, n) : Dict × Nat) from hagg]
    show aggregateFrom allowed (md, n) [⟨name, [⟨ts, q⟩]⟩] = _
    simp [aggregateFrom, aggMetric, hmem, aggData, hts]
  refine ⟨hext, lookupA_upd2_self md d name (convValue name q), ?_⟩
  obtain ⟨row, hrow, hval⟩ := lookupA_upd2_self md d name (convValue name q)
  exact stored_colValue_of_aggregate _ _ _ _ _ _ hext d row name
    (convValue name q) (lookupA_mem _ _ _ hrow) (lookupA_mem _ _ _ hval)

/-- Witness for C5: two `weight_body_mass` samples on the same date; the
later sample (71) is the stored value. -/
theorem C5_last_write_wins_witness :
    colValue (process_metrics noFail
        ([⟨"weight_body_mass", [⟨"2024-08-18 08:00:00 +0000", 70⟩]⟩] ++
          [⟨"weight_body_mass", [⟨"2024-08-18 09:00:00 +0000", 71⟩]⟩])
        BODY_COMPOSITION_METRICS "body_composition" []).1
        "2024-08-18" "weight_body_mass" = some 71 :=
  ((C5_last_write_wins
      [⟨"weight_body_mass", [⟨"2024-08-18 08:00:00 +0000", 70⟩]⟩]
      BODY_COMPOSITION_METRICS "body_composition" [] "weight_body_mass"
      "2024-08-18 09:00:00 +0000" 71 "2024-08-18"
      [("2024-08-18", [("weight_body_mass", 70)])] 1
      (by decide) (by decide) (by decide)).2.2).trans (by decide)

/-- Claim C6: a metric whose name is not in the allow-list contributes
nothing: deleting it from the batch changes neither the aggregation result
(columns and processed count) nor the whole call's outcome (stored rows and
reported result) — in particular it raises no error and its samples are not
counted. -/
theorem C6_allow_list_filtering (l1 l2 : List Metric) (m : Metric)
    (allowed : List String) (table : String) (s : Store)
    (dbFail : String → Row → Bool) (hm : m.name ∉ allowed) :
    aggregate (l1 ++ m :: l2) allowed = aggregate (l1 ++ l2) allowed ∧
    process_metrics dbFail (l1 ++ m :: l2) allowed table s
      = process_metrics dbFail (l1 ++ l2) allowed table s := by
  have hagg : aggregate (l1 ++ m :: l2) allowed
      = aggregate (l1 ++ l2) allowed := by
    unfold aggregate
    rw [aggregateFrom_append, aggregateFrom_append]
    cases aggregateFrom allowed ([], 0) l1 with
    | error e => rfl
    | ok st' =>
      show aggregateFrom allowed st' (m :: l2) = aggregateFrom allowed st' l2
      rw [aggregateFrom_cons]
      unfold aggMetric
      rw [if_neg hm]
  refine ⟨hagg, ?_⟩
  unfold process_metrics
  rw [hagg]

/-- Witness for C6: a non-allow-listed metric with an unparseable timestamp is
skipped without failing the request. -/
theorem C6_allow_list_filtering_witness :
    process_metrics noFail
        ([] ++ ⟨"bogus_metric", [⟨"not a timestamp", 1⟩]⟩ ::
          [⟨"dietary_energy", [⟨"2024-08-18 08:00:00 +0000", 418.4⟩]⟩])
        DIET_METRICS "diet" []
      = process_metrics noFail
          ([] ++ [⟨"dietary_energy", [⟨"2024-08-18 08:00:00 +0000", 418.4⟩]⟩])
          DIET_METRICS "diet" [] :=
  (C6_allow_list_filtering []
    [⟨"dietary_energy", [⟨"2024-08-18 08:00:00 +0000", 418.4⟩]⟩]
    ⟨"bogus_metric", [⟨"not a timestamp", 1⟩]⟩ DIET_METRICS "diet" [] noFail
    (by decide)).2


/-- Claim C7, counterexample: for a batch whose first-processed metric name
sorts lexicographically after the second, the INSERT column list is the
primary key followed by the columns in dict insertion order
(`weight_body_mass` before `body_mass_index`), not in sorted order, refuting
the claimed sorted column list. -/
theorem C7_counterexample_not_sorted :
    aggregate [⟨"weight_body_mass", [⟨"2024-08-18 08:00:00 +0000", 70⟩]⟩,
        ⟨"body_mass_index", [⟨"2024-08-18 09:00:00 +0000", 22⟩]⟩]
        BODY_COMPOSITION_METRICS
      = .ok ([("2024-08-18",
          [("weight_body_mass", 70), ("body_mass_index", 22)])], 2) ∧
    (buildStmt "body_composition" "2024-08-18"
        [("weight_body_mass", 70), ("body_mass_index", 22)]).insertCols
      = ["date", "weight_body_mass", "body_mass_index"] ∧
    ("body_mass_index" : String) < "weight_body_mass" ∧
    (buildStmt "body_composition" "2024-08-18"
        [("weight_body_mass", 70), ("body_mass_index", 22)]).insertCols
      ≠ ["date", "body_mass_index", "weight_body_mass"] := by
  refine ⟨by decide, rfl, ?_, by decide⟩
  rw [String.lt_iff_toList_lt]
  decide

/-- Claim C7, amended: the INSERT column list of the statement built for a row
is the primary-key column `date` followed by the row's present non-key
columns in the row mapping's insertion order (identical to the SET-clause
column list), and executing the statement upserts exactly that row. -/
theorem C7_insert_columns_insertion_order (table d : String) (row : Row)
    (s : Store) :
    (buildStmt table d row).insertCols = "date" :: keysA row ∧
    (buildStmt table d row).insertCols
      = "date" :: (buildStmt table d row).setCols ∧
    execStmt s (buildStmt table d row) = applyRow s d row :=
  ⟨rfl, rfl, execStmt_buildStmt s table d row⟩

/-- Claim C8: the unit converter divides by 4.184 exactly for
`dietary_energy` and is the identity for every other metric name; a
`dietary_energy` quantity of 418.4 kJ is stored as exactly 100 kcal (within
any 1e-9 tolerance); and the converted value is what the pipeline stores. -/
theorem C8_unit_conversion :
    (∀ q : ℚ, convValue "dietary_energy" q = q / 4.184) ∧
    (∀ (name : String) (q : ℚ), name ≠ "dietary_energy" →
      convValue name q = q) ∧
    convValue "dietary_energy" 418.4 = 100 ∧
    |convValue "dietary_energy" 418.4 - 100| ≤ 1 / 1000000000 ∧
    (∀ (name : String) (allowed : List String) (table ts : String) (q : ℚ)
      (d : String) (s : Store), name ∈ allowed → strptime_date ts = some d →
      colValue (process_metrics noFail [⟨name, [⟨ts, q⟩]⟩] allowed table s).1
        d name = some (convValue name q)) := by
  have h100 : convValue "dietary_energy" (418.4 : ℚ) = 100 := by
    norm_num [convValue]
  refine ⟨fun q => by simp [convValue],
    fun name q h => by simp [convValue, h], h100, by rw [h100]; norm_num, ?_⟩
  intro name allowed table ts q d s hmem hts
  exact stored_colValue_of_aggregate _ _ _ _ _ _
    (aggregate_single name ts q d allowed hmem hts) d
    [(name, convValue name q)] name (convValue name q)
    (List.mem_singleton.mpr rfl) (List.mem_singleton.mpr rfl)

/-- Witness for C8: identity conversion at a non-dietary metric, and the
418.4 kJ sample stored as 100 kcal end to end. -/
theorem C8_unit_conversion_witness :
    convValue "lean_body_mass" 60 = 60 ∧
    colValue (process_metrics noFail
        [⟨"dietary_energy", [⟨"2024-08-18 08:00:00 +0000", 418.4⟩]⟩]
        DIET_METRICS "diet" []).1 "2024-08-18" "dietary_energy"
      = some 100 :=
  ⟨C8_unit_conversion.2.1 "lean_body_mass" 60 (by decide),
    (C8_unit_conversion.2.2.2.2 "dietary_energy" DIET_METRICS "diet"
        "2024-08-18 08:00:00 +0000" 418.4 "2024-08-18" [] (by decide)
        (by decide)).trans (congrArg some C8_unit_conversion.2.2.1)⟩

/-- Claim C9, counterexample: the timestamp `2024-8-18 8:00:00 +0000` does
not match the fixed `YYYY-MM-DD HH:MM:SS +HHMM` shape named by the claim (it
is 23 characters long, not 25, with non-zero-padded month and hour), yet
`datetime.strptime` with `%Y-%m-%d %H:%M:%S %z` parses it, and a request
carrying it on an allow-listed metric succeeds and commits the row — no
ParseError, and the store changes. -/
theorem C9_counterexample_lenient_timestamp :
    "2024-8-18 8:00:00 +0000".toList.length = 23 ∧
    strptime_date "2024-8-18 8:00:00 +0000" = some "2024-08-18" ∧
    process_metrics noFail
        [⟨"lean_body_mass", [⟨"2024-8-18 8:00:00 +0000", 60⟩]⟩]
        BODY_COMPOSITION_METRICS "body_composition" []
      = ([("2024-08-18", [("lean_body_mass", 60)])], .ok 1) :=
  ⟨by decide, by decide, by decide⟩

/-- Claim C9, amended: failure atomicity of one ingestion call, with parse
failure meaning rejection by `datetime.strptime` with format
`%Y-%m-%d %H:%M:%S %z` (which also accepts non-zero-padded fields and
`Z`/`+HH:MM`/`+HHMMSS` offsets, so this is strictly weaker than not matching
the fixed zero-padded shape): a timestamp `strptime` rejects in any
allow-listed metric's sample fails the whole call with a parse error and
leaves the committed store exactly the starting store (parsing completes
before any write); a database failure on any aggregated row likewise fails
the call with the store unchanged (single transaction, commit only after all
rows); and in general any failing call leaves the store unchanged. -/
theorem C9_failure_atomicity :
    (∀ (dbFail : String → Row → Bool) (metrics : List Metric)
      (allowed : List String) (table : String) (s : Store) (m : Metric)
      (dp : MetricData), m ∈ metrics → m.name ∈ allowed → dp ∈ m.data →
      strptime_date dp.date = none →
      ∃ ts, process_metrics dbFail metrics allowed table s
        = (s, .error (.parseError ts))) ∧
    (∀ (dbFail : String → Row → Bool) (metrics : List Metric)
      (allowed : List String) (table : String) (s : Store) (md : Dict)
      (n : Nat), aggregate metrics allowed = .ok (md, n) →
      (∃ p ∈ md, dbFail p.1 p.2 = true) →
      process_metrics dbFail metrics allowed table s
        = (s, .error .storeError)) ∧
    (∀ (dbFail : String → Row → Bool) (metrics : List Metric)
      (allowed : List String) (table : String) (s : Store) (e : Err)
      (r : Store), process_metrics dbFail metrics allowed table s
        = (r, .error e) → r = s) := by
  refine ⟨?_, ?_, ?_⟩
  · intro dbFail metrics allowed table s m dp hm hname hdp hbad
    obtain ⟨ts, hts⟩ :=
      aggregateFrom_error_of_bad allowed ([], 0) metrics m dp hm hname hdp hbad
    exact ⟨ts, process_metrics_error _ _ _ _ _ _ hts⟩
  · intro dbFail metrics allowed table s md n hagg hfail
    unfold process_metrics
    rw [hagg]
    show (match writeAll dbFail table s md with
          | Except.error e => (s, Except.error e)
          | Except.ok store' => (store', Except.ok n))
        = (s, Except.error Err.storeError)
    rw [writeAll_error_of_fail dbFail table s md hfail]
  · intro dbFail metrics allowed table s e r h
    revert h
    unfold process_metrics
    cases hagg : aggregate metrics allowed with
    | error e0 =>
      intro h
      exact (congrArg Prod.fst h).symm
    | ok p =>
      obtain ⟨md, n⟩ := p
      intro h
      change (match writeAll dbFail table s md with
          | Except.error e => (s, Except.error e)
          | Except.ok store' => (store', Except.ok n))
        = (r, Except.error e) at h
      cases hw : writeAll dbFail table s md with
      | error e1 =>
        rw [hw] at h
        exact (congrArg Prod.fst h).symm
      | ok s2 =>
        rw [hw] at h
        have h2 := congrArg Prod.snd h
        simp at h2

/-- Witness for C9: a malformed timestamp on an allow-listed metric fails the
call and leaves the empty store empty. -/
theorem C9_failure_atomicity_witness :
    ∃ ts, process_metrics noFail [⟨"dietary_energy", [⟨"bad", 1⟩]⟩]
        DIET_METRICS "diet" [] = ([], .error (.parseError ts)) :=
  C9_failure_atomicity.1 noFail [⟨"dietary_energy", [⟨"bad", 1⟩]⟩]
    DIET_METRICS "diet" [] ⟨"dietary_energy", [⟨"bad", 1⟩]⟩ ⟨"bad", 1⟩
    (by decide) (by decide) (by decide) (by decide)

/-- Claim C10: every record produced by the sleep normalizer carries exactly
the fixed 19-field key set (in source order); a raw record lacking one of the
fields makes normalization fail before any write; and a successfully
normalized batch always satisfies the batch writer's first-row key-set
contract, so the bulk upsert succeeds. -/
theorem C10_normalizer_key_set :
    (∀ (data recs : List SleepRec), prepare_sleep_data data = .ok recs →
      ∀ r ∈ recs, keysA r = sleep_fields) ∧
    (∀ (data : List SleepRec) (item : SleepRec) (f : String), item ∈ data →
      f ∈ sleep_fields → lookupA item f = none →
      prepare_sleep_data data = .error .keyError) ∧
    (∀ (data : List SleepRec) (first : SleepRec) (rest : List SleepRec),
      prepare_sleep_data data = .ok (first :: rest) →
      ∃ vals, upsert_sleep_data (first :: rest) = .ok (keysA first, vals)) := by
  refine ⟨prepare_sleep_keys, prepare_sleep_err, ?_⟩
  intro data first rest hok
  have hkeys := prepare_sleep_keys data (first :: rest) hok
  refine upsert_ok_of_forall first rest ?_
  intro rec hrec k hk
  have h1 : keysA rec = sleep_fields := hkeys rec hrec
  have h2 : keysA first = sleep_fields := hkeys first (List.mem_cons_self _ _)
  have hkrec : k ∈ keysA rec := by rw [h1, ← h2]; exact hk
  cases ho : lookupA rec k with
  | none => exact absurd hkrec ((lookupA_eq_none_iff rec k).mp ho)
  | some v => rfl

/-- Witness for C10: a complete raw record normalizes with exactly the
19-field key set; a record with only `id` fails normalization. -/
theorem C10_normalizer_key_set_witness :
    keysA [("id", "v"), ("average_breath", "v"), ("average_heart_rate", "v"), ("average_hrv", "v"), ("awake_time", "v"), ("bedtime_end", "v"), ("bedtime_start", "v"), ("day", "v"), ("deep_sleep_duration", "v"), ("efficiency", "v"), ("latency", "v"), ("light_sleep_duration", "v"), ("lowest_heart_rate", "v"), ("rem_sleep_duration", "v"), ("restless_periods", "v"), ("sleep_score_delta", "v"), ("time_in_bed", "v"), ("total_sleep_duration", "v"), ("type", "v")] = sleep_fields ∧
    prepare_sleep_data [[("id", "s1")]] = .error .keyError :=
  ⟨C10_normalizer_key_set.1 [[("id", "v"), ("average_breath", "v"), ("average_heart_rate", "v"), ("average_hrv", "v"), ("awake_time", "v"), ("bedtime_end", "v"), ("bedtime_start", "v"), ("day", "v"), ("deep_sleep_duration", "v"), ("efficiency", "v"), ("latency", "v"), ("light_sleep_duration", "v"), ("lowest_heart_rate", "v"), ("rem_sleep_duration", "v"), ("restless_periods", "v"), ("sleep_score_delta", "v"), ("time_in_bed", "v"), ("total_sleep_duration", "v"), ("type", "v")]] [[("id", "v"), ("average_breath", "v"), ("average_heart_rate", "v"), ("average_hrv", "v"), ("awake_time", "v"), ("bedtime_end", "v"), ("bedtime_start", "v"), ("day", "v"), ("deep_sleep_duration", "v"), ("efficiency", "v"), ("latency", "v"), ("light_sleep_duration", "v"), ("lowest_heart_rate", "v"), ("rem_sleep_duration", "v"), ("restless_periods", "v"), ("sleep_score_delta", "v"), ("time_in_bed", "v"), ("total_sleep_duration", "v"), ("type", "v")]] (by decide) [("id", "v"), ("average_breath", "v"), ("average_heart_rate", "v"), ("average_hrv", "v"), ("awake_time", "v"), ("bedtime_end", "v"), ("bedtime_start", "v"), ("day", "v"), ("deep_sleep_duration", "v"), ("efficiency", "v"), ("latency", "v"), ("light_sleep_duration", "v"), ("lowest_heart_rate", "v"), ("rem_sleep_duration", "v"), ("restless_periods", "v"), ("sleep_score_delta", "v"), ("time_in_bed", "v"), ("total_sleep_duration", "v"), ("type", "v")] (by decide),
    C10_normalizer_key_set.2.1 [[("id", "s1")]] [("id", "s1")]
      "average_breath" (by decide) (by decide) (by decide)⟩


end HealthApi
